import Mathlib

/-!
Verification of the feed-forward neural-network core in `MachineLearning.h`
(namespace `ml::ann`). C++ `float` arithmetic is modelled over `ℝ`; the
C standard-library functions `std::exp`, `std::tanh`, `std::pow`, `std::erf`
are modelled by `Real.exp`, `Real.tanh`, `Real.rpow` and a Gaussian-integral
definition of `erf`. `std::vector` is modelled by `List`; out-of-bounds
element accesses (undefined behaviour in the source) are modelled by `getD`
with a default and are only relied upon in-bounds.
-/

/-- Modelled from the spec: `stlutils::sum` from StlUtils.h (not under src/),
the sum of an ordered numeric sequence. -/
def stlutils.sum (v : List ℝ) : ℝ := v.sum

/-- Modelled from the spec: `stlutils::dot` from StlUtils.h (not under src/),
the dot product used in `z = dot(available_x, available_w)`. -/
def stlutils.dot (x w : List ℝ) : ℝ := (List.zipWith (fun a b => a * b) x w).sum

/-- Modelled from the spec: `stlutils::add` from StlUtils.h (not under src/),
elementwise addition of two equal-length sequences. -/
def stlutils.add (x y : List ℝ) : List ℝ := List.zipWith (fun a b => a + b) x y

/-- Modelled from the spec: `stlutils::mult_scalar` from StlUtils.h (not under
src/), elementwise multiplication by a scalar. -/
def stlutils.mult_scalar (x : List ℝ) (s : ℝ) : List ℝ := x.map (fun a => a * s)

/-- Modelled from the spec: `stlutils::add_scalar` from StlUtils.h (not under
src/), elementwise addition of a scalar. -/
def stlutils.add_scalar (x : List ℝ) (s : ℝ) : List ℝ := x.map (fun a => a + s)

/-- The error function `std::erf`, modelled by its defining Gaussian
integral: `erf x = 2/√π · ∫ t in 0..x, exp (-t²)`. -/
noncomputable def erf (x : ℝ) : ℝ :=
  (2 / Real.sqrt Real.pi) * ∫ t in (0:ℝ)..x, Real.exp (-(t ^ 2))

/-- `ml::ann::PhiType` — the closed enumeration of activation kinds. -/
inductive PhiType where
  | BinaryStep
  | Heaviside_BinaryStep
  | Linear
  | Sigmoid
  | Tanh
  | ReLU
  | Parametric_ReLU
  | Leaky_ReLU
  | Parametric_Leaky_ReLU
  | ELU
  | Swish
  | GELU
  | SELU

/-- `ml::ann::phi(z, type, a, k, l)` — the activation functions.
The source's recursive calls `phi(z, Sigmoid)` (Swish) and
`phi(z, ELU, a, k, l)` (SELU) are inlined, since each recurses exactly once.
The C constants are `M_SQRT2 = √2`. -/
noncomputable def phi (z : ℝ) (type : PhiType) (a k l : ℝ) : ℝ :=
  match type with
  | .BinaryStep => if z < 0 then 0 else 1
  | .Heaviside_BinaryStep => if z ≤ 0 then 0 else 1
  | .Linear => z
  | .Sigmoid => 1 / (1 + Real.exp (-z))
  | .Tanh => Real.tanh z
  | .ReLU => max 0 z
  | .Parametric_ReLU => max 0 (k * z + l)
  | .Leaky_ReLU => max (0.1 * z) z
  | .Parametric_Leaky_ReLU => max (a * (k * z + l)) (k * z + l)
  | .ELU => if z < 0 then a * (Real.exp z - 1) else z
  | .Swish => z * (1 / (1 + Real.exp (-z)))
  | .GELU => 0.5 * z * (1 + erf (z / Real.sqrt 2))
  | .SELU => l * (if z < 0 then a * (Real.exp z - 1) else z)

/-- The constant `c_1_sqrt_2pi = M_2_SQRTPI/M_SQRT2` from the source's GELU
derivative, i.e. `(2/√π)/√2`. -/
noncomputable def c_1_sqrt_2pi : ℝ := 2 / Real.sqrt Real.pi / Real.sqrt 2

/-- `ml::ann::phi_diff(z, type, a, k, l)` — the activation derivatives.
The source's recursive call `phi_diff(z, ELU, a, k, l)` (SELU) is inlined;
`math::sq` is squaring. -/
noncomputable def phi_diff (z : ℝ) (type : PhiType) (a k l : ℝ) : ℝ :=
  match type with
  | .BinaryStep => 0
  | .Heaviside_BinaryStep => 0
  | .Linear => 1
  | .Sigmoid => phi z .Sigmoid a k l * (1 - phi z .Sigmoid a k l)
  | .Tanh => 1 - (phi z .Tanh a k l) ^ 2
  | .ReLU => if z < 0 then 0 else 1
  | .Parametric_ReLU => if z < -l / k then 0 else k
  | .Leaky_ReLU => if z < 0 then 0.1 else 1
  | .Parametric_Leaky_ReLU => if z < -l / k then a * k else k
  | .ELU => if z < 0 then phi z .ELU a k l + a else 1
  | .Swish => phi z .Swish a k l + phi z .Sigmoid a k l * (1 - phi z .Swish a k l)
  | .GELU =>
      0.5 * (1 + erf (z / Real.sqrt 2)) + Real.exp (-(z ^ 2) * 0.5) * z * c_1_sqrt_2pi
  | .SELU => l * (if z < 0 then phi z .ELU a k l + a else 1)

/-- The exponentiated sequence `ec` built by `ml::ann::softmax`: elementwise
`exp` when `p = 1`, else `exp(pow(v, p))`. -/
noncomputable def softmax_exp (c : List ℝ) (p : ℝ) : List ℝ :=
  if p = 1 then c.map Real.exp else c.map (fun v => Real.exp (Real.rpow v p))

/-- `ml::ann::softmax(c, p)`: exponentiate elementwise, divide each entry by
the total `stlutils::sum`. Every slot of the result is overwritten, so the
result is the length-`c.length` list of quotients. -/
noncomputable def softmax (c : List ℝ) (p : ℝ) : List ℝ :=
  (List.range c.length).map
    (fun i => (softmax_exp c p).getD i 0 / stlutils.sum (softmax_exp c p))

/-- The GELU derivative closed form stated by the spec:
`0.5(1+erf(z/√2)) + z·e^(−z²/2)/√(2π)`. -/
noncomputable def gelu_deriv_spec (z : ℝ) : ℝ :=
  0.5 * (1 + erf (z / Real.sqrt 2)) + z * Real.exp (-(z ^ 2) * 0.5) / Real.sqrt (2 * Real.pi)

/-- Claim C6: for every real z (and parameters), `phi_diff(z, Sigmoid)`
equals `phi(z, Sigmoid) * (1 - phi(z, Sigmoid))`. -/
theorem sigmoid_derivative_identity (z a k l : ℝ) :
    phi_diff z PhiType.Sigmoid a k l =
      phi z PhiType.Sigmoid a k l * (1 - phi z PhiType.Sigmoid a k l) := rfl

/-- Claim C5 counterexample: at `z = -1` with `a = 1` (and the default
`k = 1`, `l = 1.1`), the code's Parametric_ReLU activation is
`max 0 (k*z+l) = 0.1`, not the claimed `max (a*z) z = -1`. -/
theorem parametric_relu_not_max_az_z :
    phi (-1) PhiType.Parametric_ReLU 1 1 1.1 ≠ max ((1:ℝ) * (-1)) (-1) := by
  show max (0:ℝ) (1 * (-1) + 1.1) ≠ max ((1:ℝ) * (-1)) (-1)
  rw [max_eq_right (by norm_num : (1:ℝ) * (-1) ≤ -1),
    max_eq_right (by norm_num : (0:ℝ) ≤ 1 * (-1) + 1.1)]
  norm_num

/-- Claim C5 (amended): for every real z and parameters a, k, l, the
Parametric_ReLU activation equals `max 0 (k*z + l)` (the parameter `a` is
unused), and its derivative equals `0` if `z < -l/k` and `k` otherwise. -/
theorem parametric_relu_code_form (z a k l : ℝ) :
    phi z PhiType.Parametric_ReLU a k l = max 0 (k * z + l) ∧
      phi_diff z PhiType.Parametric_ReLU a k l = if z < -l / k then 0 else k :=
  ⟨rfl, rfl⟩

/-- Claim C4: refuted — at `z = 1` the code's GELU derivative differs from
the spec's closed form: the code multiplies the second term by
`M_2_SQRTPI/M_SQRT2 = 2/√(2π)`, twice the spec's `1/√(2π)`. -/
theorem gelu_phi_diff_constant_bug :
    phi_diff 1 PhiType.GELU 1 1 1.1 ≠ gelu_deriv_spec 1 := by
  have hπ : (0:ℝ) < Real.sqrt Real.pi := Real.sqrt_pos.mpr Real.pi_pos
  have h2 : (0:ℝ) < Real.sqrt 2 := by positivity
  have hsplit : Real.sqrt (2 * Real.pi) = Real.sqrt 2 * Real.sqrt Real.pi :=
    Real.sqrt_mul (by norm_num) _
  have hexp : (0:ℝ) < Real.exp (-(1 ^ 2) * 0.5) := Real.exp_pos _
  show 0.5 * (1 + erf (1 / Real.sqrt 2)) +
      Real.exp (-(1 ^ 2) * 0.5) * 1 * (2 / Real.sqrt Real.pi / Real.sqrt 2) ≠
    0.5 * (1 + erf (1 / Real.sqrt 2)) +
      1 * Real.exp (-(1 ^ 2) * 0.5) / Real.sqrt (2 * Real.pi)
  rw [hsplit]
  intro h
  have h' := add_left_cancel h
  rw [div_div] at h'
  field_simp at h'
  nlinarith [mul_pos (Real.exp_pos (-0.5)) (mul_pos h2 hπ),
    mul_pos (Real.exp_pos (-0.5)) (mul_pos hπ h2)]

/-- Any list equals the map of `getD` over the range of its length. -/
theorem list_map_range_getD (l : List ℝ) (d : ℝ) :
    (List.range l.length).map (fun i => l.getD i d) = l := by
  apply List.ext_getElem
  · simp
  · intro i h1 h2
    simp only [List.getElem_map, List.getElem_range]
    exact List.getD_eq_getElem l d h2

/-- Summing a list of quotients by a common divisor. -/
theorem list_sum_map_div (l : List ℝ) (r : ℝ) :
    (l.map (fun v => v / r)).sum = l.sum / r := by
  induction l with
  | nil => simp
  | cons x xs ih =>
      simp only [List.map_cons, List.sum_cons, ih]
      ring

/-- Claim C7: `softmax` preserves the length of its input, and whenever the
sum of the exponentiated entries is nonzero, the entries of the result sum
to exactly 1 (the division is total in this model, so a zero sum yields a
degenerate result rather than an error). -/
theorem softmax_sums_to_one (c : List ℝ) (p : ℝ) :
    (softmax c p).length = c.length ∧
      (stlutils.sum (softmax_exp c p) ≠ 0 → (softmax c p).sum = 1) := by
  constructor
  · simp [softmax]
  · intro hs
    have hlen : (softmax_exp c p).length = c.length := by
      unfold softmax_exp
      by_cases hp : p = 1 <;> simp [hp]
    unfold softmax
    rw [← hlen]
    have hmap : (List.range (softmax_exp c p).length).map
        (fun i => (softmax_exp c p).getD i 0 / stlutils.sum (softmax_exp c p)) =
        ((List.range (softmax_exp c p).length).map
          (fun i => (softmax_exp c p).getD i 0)).map
          (fun v => v / stlutils.sum (softmax_exp c p)) := by
      rw [List.map_map]; rfl
    rw [hmap, list_map_range_getD, list_sum_map_div]
    exact div_self hs

/-- Witness for C7 at the concrete input `c = [0, 0]`, `p = 1`. -/
theorem softmax_sums_to_one_witness :
    stlutils.sum (softmax_exp [(0:ℝ), 0] 1) ≠ 0 ∧ (softmax [(0:ℝ), 0] 1).sum = 1 :=
  ⟨by norm_num [softmax_exp, stlutils.sum],
    (softmax_sums_to_one [0, 0] 1).2 (by norm_num [softmax_exp, stlutils.sum])⟩

/-- A memory location for a `const float*` aimed at a neuron's stored output
`y`: (layer index, neuron index) within the owning network. -/
abbrev Loc : Type := Nat × Nat

/-- A store assigning the currently pointed-to value to every location. -/
abbrev Store : Type := Loc → ℝ

/-- `ml::ann::Input` — in one of three states: unset, literal scalar, or a
non-owning pointer to another neuron's output. The pointer `dendrite_output`
is modelled as `Option Loc`, with `none` standing for `nullptr`. -/
structure Input where
  perceptron_signal : ℝ := 0
  dendrite_output : Option Loc := none
  set : Bool := false

instance : Inhabited Input := ⟨{}⟩

/-- The constructor `Input(const float signal)`. -/
def Input.fromSignal (signal : ℝ) : Input :=
  { perceptron_signal := signal, set := true }

/-- The constructor `Input(const float* output)` — callable with any pointer
value, including a null one. -/
def Input.fromPtr (output : Option Loc) : Input :=
  { dendrite_output := output, set := true }

/-- `Input::get()` evaluated under the store `σ`: absent when not set,
otherwise the pointed-to value when the pointer is non-null, otherwise the
stored literal signal. -/
def Input.get (inp : Input) (σ : Store) : Option ℝ :=
  if inp.set = false then none
  else
    match inp.dendrite_output with
    | some loc => some (σ loc)
    | none => some inp.perceptron_signal

/-- `ml::ann::Neuron` — fixed input width, bound inputs, weights, bias,
activation selection and parameters, transient forward state (`z`, `y`) and
the momentum memory of the previous deltas. -/
structure Neuron where
  Nw : ℕ
  inputs : List Input
  weights : List ℝ
  bias : ℝ
  z : ℝ
  phi_type : PhiType
  phi_param_a : ℝ
  phi_param_k : ℝ
  phi_param_l : ℝ
  y : ℝ
  w_diff_prev : List ℝ
  b_diff_prev : ℝ

/-- The constructor `Neuron(w, b, af_type)`: `Nw = w.size()`, previous
deltas zero-initialised, transient state zero, default phi parameters. -/
def Neuron.make (w : List ℝ) (b : ℝ) (af_type : PhiType) : Neuron :=
  { Nw := w.length, inputs := [], weights := w, bias := b, z := 0,
    phi_type := af_type, phi_param_a := 1, phi_param_k := 1,
    phi_param_l := 1.1, y := 0, w_diff_prev := List.replicate w.length 0,
    b_diff_prev := 0 }

instance : Inhabited Neuron := ⟨Neuron.make [] 0 .Linear⟩

/-- `Neuron::set_inputs(x)` (the source `assert`s `x.size() == Nw`; asserts
compile out under NDEBUG and are modelled as unchecked). -/
def Neuron.set_inputs (n : Neuron) (x : List Input) : Neuron :=
  { n with inputs := x }

/-- `Neuron::set_phi_params(a, k, l)`. -/
def Neuron.set_phi_params (n : Neuron) (a k l : ℝ) : Neuron :=
  { n with phi_param_a := a, phi_param_k := k, phi_param_l := l }

/-- `Neuron::update_forward()` under store `σ`: gathers the available
(non-unset) inputs and their matching weights in lockstep, computes
`z = dot(x, w) + bias` and `y = phi(z, ...)`, stores both and returns `y`.
Reading `inputs[i]` when the inputs were never bound is UB in the source;
it is modelled by `getD` with the default (unset) `Input`. -/
noncomputable def Neuron.update_forward (n : Neuron) (σ : Store) : Neuron × ℝ :=
  let xw := (List.range n.Nw).filterMap
    (fun i => ((n.inputs.getD i {}).get σ).map (fun v => (v, n.weights.getD i 0)))
  let z := stlutils.dot (xw.map Prod.fst) (xw.map Prod.snd) + n.bias
  let y := phi z n.phi_type n.phi_param_a n.phi_param_k n.phi_param_l
  ({ n with z := z, y := y }, y)

/-- `Neuron::update_backward(y_trg, eta, mu, r)` under store `σ`: raw
gradient `dC_dw = dz_dw * (-(y_trg - y) * phi_diff z)` with
`dz_dw[i] = inputs[i].get().value_or(0)`, momentum update
`w_diff = eta * (-dC_dw + mu * w_diff_prev + r)` applied to the weights
(and symmetrically to the bias), deltas stored as the new previous deltas,
and the raw gradient returned. -/
noncomputable def Neuron.update_backward (n : Neuron) (σ : Store)
    (y_trg eta mu r : ℝ) : Neuron × List ℝ :=
  let err_diff := -(y_trg - n.y)
  let dC_df := err_diff
  let df_dz := phi_diff n.z n.phi_type n.phi_param_a n.phi_param_k n.phi_param_l
  let dz_dw := (List.range n.Nw).map (fun i => ((n.inputs.getD i {}).get σ).getD 0)
  let dz_db := (1:ℝ)
  let dC_dz := dC_df * df_dz
  let dC_dw := stlutils.mult_scalar dz_dw dC_dz
  let dC_db := dC_dz * dz_db
  let w_diff0 := stlutils.mult_scalar dC_dw (-1)
  let w_diff1 := stlutils.add w_diff0 (stlutils.mult_scalar n.w_diff_prev mu)
  let w_diff2 := stlutils.add_scalar w_diff1 r
  let w_diff := stlutils.mult_scalar w_diff2 eta
  let b_diff := eta * (-dC_db + mu * n.b_diff_prev + r)
  ({ n with weights := stlutils.add n.weights w_diff,
            bias := n.bias + b_diff,
            w_diff_prev := w_diff,
            b_diff_prev := b_diff }, dC_dw)

/-- Claim C10: an `Input` built from a null pointer is marked set and its
`get` returns the default literal value 0 (not absent); only a
default-constructed `Input` reads as absent; and an `Input` built from a
non-null pointer re-reads the pointed-to value from the current store on
every `get`. -/
theorem input_three_states :
    (∀ σ : Store, (Input.fromPtr none).set = true ∧ (Input.fromPtr none).get σ = some 0) ∧
      (∀ σ : Store, Input.get {} σ = none) ∧
      (∀ (loc : Loc) (σ : Store), (Input.fromPtr (some loc)).get σ = some (σ loc)) :=
  ⟨fun _ => ⟨rfl, rfl⟩, fun _ => rfl, fun _ _ => rfl⟩

/-- Claim C9: the backward step mutates only weights, bias and the
previous-delta memory (z, y, inputs, the width and the activation selection
are unchanged), and the forward step mutates only z and y (weights, bias,
the previous-delta memory, inputs, width and activation selection are
unchanged). -/
theorem neuron_frame_conditions (n : Neuron) (σ : Store) (y_trg eta mu r : ℝ) :
    ((n.update_backward σ y_trg eta mu r).1.z = n.z ∧
      (n.update_backward σ y_trg eta mu r).1.y = n.y ∧
      (n.update_backward σ y_trg eta mu r).1.inputs = n.inputs ∧
      (n.update_backward σ y_trg eta mu r).1.Nw = n.Nw ∧
      (n.update_backward σ y_trg eta mu r).1.phi_type = n.phi_type) ∧
    ((n.update_forward σ).1.weights = n.weights ∧
      (n.update_forward σ).1.bias = n.bias ∧
      (n.update_forward σ).1.w_diff_prev = n.w_diff_prev ∧
      (n.update_forward σ).1.b_diff_prev = n.b_diff_prev ∧
      (n.update_forward σ).1.inputs = n.inputs ∧
      (n.update_forward σ).1.Nw = n.Nw ∧
      (n.update_forward σ).1.phi_type = n.phi_type) :=
  ⟨⟨rfl, rfl, rfl, rfl, rfl⟩, rfl, rfl, rfl, rfl, rfl, rfl, rfl⟩

/-- Zipping two maps over the same index list fuses into one map. -/
theorem zipWith_map_same (f : ℝ → ℝ → ℝ) (g h : ℕ → ℝ) (L : List ℕ) :
    List.zipWith f (L.map g) (L.map h) = L.map (fun i => f (g i) (h i)) := by
  induction L with
  | nil => rfl
  | cons j js ih => simp [ih]

/-- Lockstep gathering: the dot product of the values and weights collected
from exactly the available slots equals the sum over all slots of
value·weight, an unavailable slot contributing nothing. -/
theorem dot_filterMap_lockstep (L : List ℕ) (f : ℕ → Option ℝ) (w : ℕ → ℝ) :
    stlutils.dot
        ((L.filterMap (fun i => (f i).map (fun v => (v, w i)))).map Prod.fst)
        ((L.filterMap (fun i => (f i).map (fun v => (v, w i)))).map Prod.snd) =
      (L.map (fun i => (f i).elim 0 (fun v => v * w i))).sum := by
  induction L with
  | nil => rfl
  | cons j js ih =>
      cases hfj : f j with
      | none =>
          simpa [List.filterMap_cons, hfj] using ih
      | some v =>
          simp only [List.filterMap_cons, hfj, Option.map_some', List.map_cons,
            List.sum_cons, Option.elim_some, stlutils.dot, List.zipWith_cons_cons] at ih ⊢
          rw [ih]

/-- Claim C3: the forward step computes `z` as the dot product over exactly
the available (non-unset) inputs paired in lockstep with their own weights —
an unset slot contributes neither its signal nor its weight — plus the bias;
it stores `z` and `y = phi(z)` and returns `y`. -/
theorem neuron_update_forward_spec (n : Neuron) (σ : Store) :
    (n.update_forward σ).1.z =
      ((List.range n.Nw).map (fun i =>
        ((n.inputs.getD i {}).get σ).elim 0 (fun v => v * n.weights.getD i 0))).sum
        + n.bias ∧
    (n.update_forward σ).1.y =
      phi ((n.update_forward σ).1.z) n.phi_type n.phi_param_a n.phi_param_k n.phi_param_l ∧
    (n.update_forward σ).2 = (n.update_forward σ).1.y := by
  refine ⟨?_, rfl, rfl⟩
  simp only [Neuron.update_forward]
  rw [dot_filterMap_lockstep (List.range n.Nw)
    (fun i => (n.inputs.getD i {}).get σ) (fun i => n.weights.getD i 0)]

/-- The raw gradient entry `dC/dw_i = -(y_target - y) * phi_diff(z) * x_i`
stated by the claim, with `x_i = 0` for an unset input slot. -/
noncomputable def raw_grad_spec (n : Neuron) (σ : Store) (y_trg : ℝ) (i : ℕ) : ℝ :=
  -(y_trg - n.y) *
    phi_diff n.z n.phi_type n.phi_param_a n.phi_param_k n.phi_param_l *
    ((n.inputs.getD i {}).get σ).getD 0

/-- The weight update `delta_w_i = eta * (-dC/dw_i + mu * prev_i + r)`
stated by the claim. -/
noncomputable def delta_w_spec (n : Neuron) (σ : Store) (y_trg eta mu r : ℝ) (i : ℕ) : ℝ :=
  eta * (-raw_grad_spec n σ y_trg i + mu * n.w_diff_prev.getD i 0 + r)

/-- The bias update `delta_b = eta * (-dC/db + mu * prev_b + r)` stated by
the claim, with `dC/db = -(y_target - y) * phi_diff(z)`. -/
noncomputable def delta_b_spec (n : Neuron) (y_trg eta mu r : ℝ) : ℝ :=
  eta * (-(-(y_trg - n.y) *
    phi_diff n.z n.phi_type n.phi_param_a n.phi_param_k n.phi_param_l) +
    mu * n.b_diff_prev + r)

/-- Adding a range-indexed map to a list of the same length, elementwise. -/
theorem zipWith_add_left_getD (l : List ℝ) (f : ℕ → ℝ) (N : ℕ) (h : l.length = N) :
    List.zipWith (fun a b => a + b) l ((List.range N).map f) =
      (List.range N).map (fun i => l.getD i 0 + f i) := by
  apply List.ext_getElem
  · simp [h]
  · intro i h1 h2
    have hl : i < l.length := by simp at h2; omega
    simp only [List.getElem_zipWith, List.getElem_map, List.getElem_range]
    rw [List.getD_eq_getElem l 0 hl]

/-- Claim C2: the backward step returns the raw pre-update gradient
`dC/dw_i = -(y_target - y) * phi_diff(z) * x_i` (0 for unset slots), applies
`weight_i += eta * (-dC/dw_i + mu * prev_i + r)` and the symmetric bias rule,
and stores the applied deltas as the new previous deltas. -/
theorem neuron_update_backward_spec (n : Neuron) (σ : Store) (y_trg eta mu r : ℝ)
    (hi : n.inputs.length = n.Nw) (hw : n.weights.length = n.Nw)
    (hp : n.w_diff_prev.length = n.Nw) :
    (n.update_backward σ y_trg eta mu r).2 =
      (List.range n.Nw).map (raw_grad_spec n σ y_trg) ∧
    (n.update_backward σ y_trg eta mu r).1.weights =
      (List.range n.Nw).map
        (fun i => n.weights.getD i 0 + delta_w_spec n σ y_trg eta mu r i) ∧
    (n.update_backward σ y_trg eta mu r).1.w_diff_prev =
      (List.range n.Nw).map (delta_w_spec n σ y_trg eta mu r) ∧
    (n.update_backward σ y_trg eta mu r).1.bias =
      n.bias + delta_b_spec n y_trg eta mu r ∧
    (n.update_backward σ y_trg eta mu r).1.b_diff_prev =
      delta_b_spec n y_trg eta mu r := by
  have hprev : (List.range n.Nw).map (fun i => n.w_diff_prev.getD i 0) = n.w_diff_prev := by
    rw [← hp]; exact list_map_range_getD _ _
  simp only [Neuron.update_backward, stlutils.mult_scalar, stlutils.add,
    stlutils.add_scalar]
  rw [← hprev]
  simp only [List.map_map, zipWith_map_same, List.map_map]
  rw [zipWith_add_left_getD n.weights _ n.Nw hw]
  refine ⟨?_, ?_, ?_, ?_, ?_⟩
  · exact List.map_congr_left (fun i _ => by
      simp only [Function.comp, raw_grad_spec]; ring)
  · exact List.map_congr_left (fun i _ => by
      simp only [Function.comp, delta_w_spec, raw_grad_spec]; ring)
  · exact List.map_congr_left (fun i _ => by
      simp only [Function.comp, delta_w_spec, raw_grad_spec]; ring)
  · simp only [delta_b_spec]; ring
  · simp only [delta_b_spec]; ring

/-- A concrete trained-once neuron used as witness input: weights `[3]`,
bias 0, Linear activation, single literal input 2. -/
noncomputable def bw_example : Neuron :=
  Neuron.set_inputs (Neuron.make [3] 0 .Linear) [Input.fromSignal 2]

/-- Witness for C2 at the concrete neuron `bw_example` with target 1,
`eta = 1`, `mu = 0`, `r = 0` under the empty store. -/
theorem neuron_update_backward_spec_witness :
    (bw_example.inputs.length = bw_example.Nw ∧
      bw_example.weights.length = bw_example.Nw ∧
      bw_example.w_diff_prev.length = bw_example.Nw) ∧
    ((bw_example.update_backward (fun _ => 0) 1 1 0 0).2 =
      (List.range bw_example.Nw).map (raw_grad_spec bw_example (fun _ => 0) 1) ∧
    (bw_example.update_backward (fun _ => 0) 1 1 0 0).1.weights =
      (List.range bw_example.Nw).map
        (fun i => bw_example.weights.getD i 0 +
          delta_w_spec bw_example (fun _ => 0) 1 1 0 0 i) ∧
    (bw_example.update_backward (fun _ => 0) 1 1 0 0).1.w_diff_prev =
      (List.range bw_example.Nw).map (delta_w_spec bw_example (fun _ => 0) 1 1 0 0) ∧
    (bw_example.update_backward (fun _ => 0) 1 1 0 0).1.bias =
      bw_example.bias + delta_b_spec bw_example 1 1 0 0 ∧
    (bw_example.update_backward (fun _ => 0) 1 1 0 0).1.b_diff_prev =
      delta_b_spec bw_example 1 1 0 0) :=
  ⟨⟨by simp [bw_example, Neuron.make, Neuron.set_inputs],
    by simp [bw_example, Neuron.make, Neuron.set_inputs],
    by simp [bw_example, Neuron.make, Neuron.set_inputs]⟩,
    neuron_update_backward_spec bw_example (fun _ => 0) 1 1 0 0
      (by simp [bw_example, Neuron.make, Neuron.set_inputs])
      (by simp [bw_example, Neuron.make, Neuron.set_inputs])
      (by simp [bw_example, Neuron.make, Neuron.set_inputs])⟩

/-- `ml::ann::NeuralLayer` — input width `Ni`, output width `No`, and the
owned neurons. -/
structure NeuralLayer where
  Ni : ℕ
  No : ℕ
  neurons : List Neuron

instance : Inhabited NeuralLayer := ⟨⟨0, 0, []⟩⟩

/-- The constructor `NeuralLayer(w, b, af_type)`: `No = w.size()`,
`Ni = w[0].size()` (UB on an empty `w`, modelled by `headD`), one neuron per
row. No shape validation is performed: each neuron adopts its own row's
length as its width, and `b[n_idx]` is read for every row index (out of
bounds when `b` is shorter than `w` — UB, modelled by `getD`). -/
def NeuralLayer.make (w : List (List ℝ)) (b : List ℝ) (af_type : PhiType) : NeuralLayer :=
  { No := w.length, Ni := (w.headD []).length,
    neurons := (List.range w.length).map
      (fun n_idx => Neuron.make (w.getD n_idx []) (b.getD n_idx 0) af_type) }

/-- `NeuralLayer::set_inputs(x)`: broadcast the same inputs to every neuron. -/
def NeuralLayer.set_inputs (l : NeuralLayer) (x : List Input) : NeuralLayer :=
  { l with neurons := l.neurons.map (fun n => n.set_inputs x) }

/-- `NeuralLayer::output()` for the layer sitting at index `li` of its
network: one non-null pointer to each neuron's stored output `y`. -/
def NeuralLayer.output (l : NeuralLayer) (li : ℕ) : List Input :=
  (List.range l.No).map (fun n_idx => Input.fromPtr (some (li, n_idx)))

/-- `NeuralLayer::update_forward()` under store `σ`: every neuron's forward
step. -/
noncomputable def NeuralLayer.update_forward (l : NeuralLayer) (σ : Store) : NeuralLayer :=
  { l with neurons := l.neurons.map (fun n => (n.update_forward σ).1) }

/-- `NeuralLayer::update_backward(y_trg, eta, mu, r)` under store `σ`: each
neuron's backward step against its own target component, gradients collected
into a matrix (the source `assert`s `y_trg.size() == No` and the neuron list
has length `No`, so the lockstep `zipWith` is exact in-bounds). -/
noncomputable def NeuralLayer.update_backward (l : NeuralLayer) (σ : Store)
    (y_trg : List ℝ) (eta mu r : ℝ) : NeuralLayer × List (List ℝ) :=
  let res := List.zipWith (fun n t => n.update_backward σ t eta mu r) l.neurons y_trg
  ({ l with neurons := res.map Prod.fst }, res.map Prod.snd)

/-- `ml::ann::NeuralNetwork` — the ordered layers, `Nl = w.size()`. -/
structure NeuralNetwork where
  Nl : ℕ
  layers : List NeuralLayer

/-- The store realised by a network state: location `(li, ni)` holds the
current output `y` of neuron `ni` of layer `li` — the pointee of
`Neuron::output()`. -/
def NeuralNetwork.store (net : NeuralNetwork) : Store :=
  fun p => ((net.layers.getD p.1 default).neurons.getD p.2 default).y

/-- The constructor `NeuralNetwork(w, b, af_type)`: build every layer, then
wire each layer's inputs (from index 1 on) to pointers into the previous
layer's neuron outputs; the first layer is left unwired. -/
def NeuralNetwork.make (w : List (List (List ℝ))) (b : List (List ℝ))
    (af_type : List PhiType) : NeuralNetwork :=
  let ls := (List.range w.length).map
    (fun l_idx => NeuralLayer.make (w.getD l_idx []) (b.getD l_idx [])
      (af_type.getD l_idx .Linear))
  { Nl := w.length,
    layers := (List.range w.length).map
      (fun l_idx =>
        if l_idx = 0 then ls.getD 0 default
        else (ls.getD l_idx default).set_inputs
          ((ls.getD (l_idx - 1) default).output (l_idx - 1))) }

/-- `NeuralNetwork::set_inputs(x)`: bind the first layer's inputs. -/
def NeuralNetwork.set_inputs (net : NeuralNetwork) (x : List Input) : NeuralNetwork :=
  { net with layers := net.layers.set 0 ((net.layers.getD 0 default).set_inputs x) }

/-- `NeuralNetwork::update_forward()`: the layers run in index order; each
layer reads the current store, which already reflects the in-place `y`
updates of the earlier layers. -/
noncomputable def NeuralNetwork.update_forward (net : NeuralNetwork) : NeuralNetwork :=
  (List.range net.layers.length).foldl
    (fun acc l_idx =>
      { acc with layers :=
          acc.layers.set l_idx ((acc.layers.getD l_idx default).update_forward acc.store) })
    net

/-- The descending loop of `NeuralNetwork::update_backward`: the counter is
`l_idx + 1` where `l_idx` is the next layer to process, so the layer at the
counter's value is the downstream layer, whose input width `Ni` sizes the
column-sum reduction of its gradient matrix. -/
noncomputable def NeuralNetwork.backLoop (σ : Store) (eta mu r : ℝ) :
    List NeuralLayer → ℕ → List (List ℝ) → List NeuralLayer × List (List ℝ)
  | layers, 0, grad => (layers, grad)
  | layers, k + 1, grad =>
      let ni := (layers.getD (k + 1) default).Ni
      let grad_flat := (List.range ni).map
        (fun i_idx => (grad.map (fun row => row.getD i_idx 0)).sum)
      let res := (layers.getD k default).update_backward σ grad_flat eta mu r
      NeuralNetwork.backLoop σ eta mu r (layers.set k res.1) k res.2

/-- `NeuralNetwork::update_backward(y_trg, eta, mu, r)`: the last layer
consumes `y_trg` directly; each earlier layer, from `Nl-2` down to `0`,
consumes the per-upstream-index column sums of the downstream layer's
gradient matrix as its target vector. The store is fixed at entry (`y`
values do not change during the backward pass). Returns the updated network
and the gradient matrix of the last processed (first) layer. -/
noncomputable def NeuralNetwork.update_backward (net : NeuralNetwork)
    (y_trg : List ℝ) (eta mu r : ℝ) : NeuralNetwork × List (List ℝ) :=
  let σ := net.store
  let nl := net.layers.length
  let res := (net.layers.getD (nl - 1) default).update_backward σ y_trg eta mu r
  let fin := NeuralNetwork.backLoop σ eta mu r (net.layers.set (nl - 1) res.1) (nl - 1) res.2
  ({ net with layers := fin.1 }, fin.2)

/-- Modelled from the spec: layer construction with the claimed shape
precondition — every weight row has exactly `Ni` (= first row's) entries and
there are exactly as many biases as rows — failing on violation. -/
def NeuralLayer.makeChecked (w : List (List ℝ)) (b : List ℝ)
    (af_type : PhiType) : Option NeuralLayer :=
  if (∀ row ∈ w, row.length = (w.headD []).length) ∧ b.length = w.length
  then some (NeuralLayer.make w b af_type) else none

/-- Claim C8 counterexample: on the ragged weight matrix `[[1],[2,3]]` with
two biases, the spec-mandated checked construction fails, but the code's
constructor succeeds, yielding a layer with `Ni = 1` whose second neuron has
width 2 — the shape violation is accepted silently instead of failing. -/
theorem layer_make_accepts_ragged :
    NeuralLayer.makeChecked [[1], [2, 3]] [0, 0] PhiType.Linear = none ∧
      (NeuralLayer.make [[1], [2, 3]] [0, 0] PhiType.Linear).Ni = 1 ∧
      (NeuralLayer.make [[1], [2, 3]] [0, 0] PhiType.Linear).No = 2 ∧
      ((NeuralLayer.make [[1], [2, 3]] [0, 0] PhiType.Linear).neurons.getD 1 default).Nw = 2 := by
  refine ⟨?_, rfl, rfl, rfl⟩
  rw [NeuralLayer.makeChecked, if_neg]
  intro h
  have h2 := h.1 [2, 3] (by simp)
  simp at h2

/-- Claim C8 (amended): layer construction performs no shape validation —
for every weight matrix and bias vector it succeeds, producing one neuron
per row, each neuron adopting its own row as weights (hence its own row's
length as width) and the positionally matching bias; a bias vector shorter
than the row count is read out of bounds (undefined behaviour) rather than
rejected. -/
theorem layer_make_no_shape_check (w : List (List ℝ)) (b : List ℝ)
    (af_type : PhiType) (i : ℕ) (h : i < w.length) :
    (NeuralLayer.make w b af_type).neurons.length = w.length ∧
      ((NeuralLayer.make w b af_type).neurons.getD i default).weights = w.getD i [] ∧
      ((NeuralLayer.make w b af_type).neurons.getD i default).Nw = (w.getD i []).length ∧
      ((NeuralLayer.make w b af_type).neurons.getD i default).bias = b.getD i 0 := by
  have hget : (NeuralLayer.make w b af_type).neurons.getD i default =
      Neuron.make (w.getD i []) (b.getD i 0) af_type := by
    rw [NeuralLayer.make]
    rw [List.getD_eq_getElem _ _ (by simpa using h)]
    simp
  refine ⟨by simp [NeuralLayer.make], ?_, ?_, ?_⟩ <;> rw [hget] <;> rfl

/-- Witness for C8 (amended) at the ragged input `w = [[1],[2,3]]`,
`b = [0,0]`, `i = 1`. -/
theorem layer_make_no_shape_check_witness :
    1 < ([[(1:ℝ)], [2, 3]] : List (List ℝ)).length ∧
    ((NeuralLayer.make [[(1:ℝ)], [2, 3]] [0, 0] PhiType.Linear).neurons.length =
        ([[(1:ℝ)], [2, 3]] : List (List ℝ)).length ∧
      ((NeuralLayer.make [[(1:ℝ)], [2, 3]] [0, 0] PhiType.Linear).neurons.getD 1 default).weights =
        ([[(1:ℝ)], [2, 3]] : List (List ℝ)).getD 1 [] ∧
      ((NeuralLayer.make [[(1:ℝ)], [2, 3]] [0, 0] PhiType.Linear).neurons.getD 1 default).Nw =
        (([[(1:ℝ)], [2, 3]] : List (List ℝ)).getD 1 []).length ∧
      ((NeuralLayer.make [[(1:ℝ)], [2, 3]] [0, 0] PhiType.Linear).neurons.getD 1 default).bias =
        ([(0:ℝ), 0] : List ℝ).getD 1 0) :=
  ⟨by simp,
    layer_make_no_shape_check [[(1:ℝ)], [2, 3]] [0, 0] PhiType.Linear 1 (by simp)⟩

/-- Unfolding `backLoop` at counter 0: no layers below remain. -/
theorem backLoop_zero (σ : Store) (eta mu r : ℝ) (ls : List NeuralLayer)
    (g : List (List ℝ)) :
    NeuralNetwork.backLoop σ eta mu r ls 0 g = (ls, g) := rfl

/-- Unfolding `backLoop` at counter 1: one column-sum reduction, sized by
layer 1's input width, feeding layer 0's backward step. -/
theorem backLoop_one (σ : Store) (eta mu r : ℝ) (ls : List NeuralLayer)
    (g : List (List ℝ)) :
    NeuralNetwork.backLoop σ eta mu r ls 1 g =
      (ls.set 0 ((ls.getD 0 default).update_backward σ
          ((List.range (ls.getD 1 default).Ni).map
            (fun i_idx => (g.map (fun row => row.getD i_idx 0)).sum)) eta mu r).1,
        ((ls.getD 0 default).update_backward σ
          ((List.range (ls.getD 1 default).Ni).map
            (fun i_idx => (g.map (fun row => row.getD i_idx 0)).sum)) eta mu r).2) := rfl

/-- Claim C1: on a 1→2→1 network (all Linear, weights `w1 w2` and biases
`c1 c2` in the hidden layer, weights `v1 v2` and bias `c3` in the output
layer, literal input `x`), a forward pass followed by the network backward
pass against target `t` returns a first-layer gradient matrix whose row for
each downstream path `o` is the hand-expanded chain
`-(sum_over_downstream(dC/dw_o) - y_o) * phi_diff * x` — the summed gradient
column of the last layer fed back as target — and the gradient for the
single upstream neuron, summed across both downstream paths, equals the sum
of the two per-path chain expansions. -/
theorem network_1_2_1_backward_chain (w1 w2 c1 c2 v1 v2 c3 x t eta mu r : ℝ) :
    ((((NeuralNetwork.make [[[w1], [w2]], [[v1, v2]]] [[c1, c2], [c3]]
        [PhiType.Linear, PhiType.Linear]).set_inputs
          [Input.fromSignal x]).update_forward).update_backward [t] eta mu r).2 =
      [[-(-(t - (v1 * (w1 * x + c1) + v2 * (w2 * x + c2) + c3)) * 1 * (w1 * x + c1)
            - (w1 * x + c1)) * 1 * x],
        [-(-(t - (v1 * (w1 * x + c1) + v2 * (w2 * x + c2) + c3)) * 1 * (w2 * x + c2)
            - (w2 * x + c2)) * 1 * x]] ∧
      (((((NeuralNetwork.make [[[w1], [w2]], [[v1, v2]]] [[c1, c2], [c3]]
        [PhiType.Linear, PhiType.Linear]).set_inputs
          [Input.fromSignal x]).update_forward).update_backward [t] eta mu r).2.map
            (fun row => row.getD 0 0)).sum =
        -(-(t - (v1 * (w1 * x + c1) + v2 * (w2 * x + c2) + c3)) * 1 * (w1 * x + c1)
            - (w1 * x + c1)) * 1 * x +
        -(-(t - (v1 * (w1 * x + c1) + v2 * (w2 * x + c2) + c3)) * 1 * (w2 * x + c2)
            - (w2 * x + c2)) * 1 * x := by
  have hr1 : List.range 1 = [0] := rfl
  have hr2 : List.range 2 = [0, 1] := rfl
  have hphi : ∀ z a k l : ℝ, phi z PhiType.Linear a k l = z := fun _ _ _ _ => rfl
  have hphid : ∀ z a k l : ℝ, phi_diff z PhiType.Linear a k l = 1 := fun _ _ _ _ => rfl
  have h1 : ((((NeuralNetwork.make [[[w1], [w2]], [[v1, v2]]] [[c1, c2], [c3]]
        [PhiType.Linear, PhiType.Linear]).set_inputs
          [Input.fromSignal x]).update_forward).update_backward [t] eta mu r).2 =
      [[-(-(t - (v1 * (w1 * x + c1) + v2 * (w2 * x + c2) + c3)) * 1 * (w1 * x + c1)
            - (w1 * x + c1)) * 1 * x],
        [-(-(t - (v1 * (w1 * x + c1) + v2 * (w2 * x + c2) + c3)) * 1 * (w2 * x + c2)
            - (w2 * x + c2)) * 1 * x]] := by
    simp [NeuralNetwork.make, NeuralLayer.make, Neuron.make,
      NeuralNetwork.set_inputs, NeuralLayer.set_inputs, Neuron.set_inputs,
      NeuralLayer.output, Input.fromPtr, Input.fromSignal,
      NeuralNetwork.update_forward, NeuralLayer.update_forward, Neuron.update_forward,
      NeuralNetwork.update_backward, NeuralLayer.update_backward, Neuron.update_backward,
      backLoop_one, backLoop_zero, NeuralNetwork.store, Input.get,
      stlutils.dot, stlutils.add, stlutils.mult_scalar, stlutils.add_scalar, stlutils.sum,
      hphi, hphid, hr1, hr2, List.getD_cons_zero, List.getD_cons_succ,
      List.filterMap_cons, List.zipWith_cons_cons]
    exact ⟨by ring, by ring⟩
  refine ⟨h1, ?_⟩
  rw [h1]
  simp [List.getD_cons_zero]
